import Mathlib

/-!
Verification development for the image-transform plugin in
lib/GraphicsMagick.js.  The JavaScript class is shallowly embedded: each
method becomes a Lean function, the asynchronous callback pipeline becomes
explicit result values, and the external collaborators (the gm conversion
engine, the mmmagic MIME sniffer, fs.stat, crypto.randomBytes and the
storage provider) become oracle inputs supplied through an environment
record, since their behaviour is outside the program.
-/

/-- Value of one key of a transform specification: in the source these are
the values of the option-bag object passed to convert, either a scalar or
an array of scalars. -/
inductive TValue
  | scalar (s : String)
  | list (l : List String)
deriving DecidableEq, Repr

/-- A TransformSpec is a JS object mapping option names to values; JS
objects iterate string keys in insertion order, so an ordered association
list models it. -/
abbrev TransformSpec := List (String × TValue)

/-- Attributes returned by the gm identify call. -/
structure Attrs where
  format : String
  depth : Nat
  width : Nat
  height : Nat
deriving DecidableEq, Repr

/-- An attachment: path and original name, as used by process. -/
structure Attachment where
  path : String
  name : String
deriving DecidableEq, Repr

/-- One sub-record of the model (model[name] in the source).  Fields that
the unit may write; none means the field has not been written. -/
structure SubRecord where
  format : Option String
  depth : Option Nat
  width : Option Nat
  height : Option Nat
  size : Option Nat
  url : Option String
  name : Option String
  type : Option String
deriving DecidableEq, Repr

/-- The empty sub-record: no field written yet. -/
def emptySubRecord : SubRecord :=
  ⟨none, none, none, none, none, none, none, none⟩

/-- The model is the collection of sub-records keyed by transform name. -/
abbrev Model := List (String × SubRecord)

/-- Reading model[name]; a missing entry is treated as an empty sub-record. -/
def lookupD (m : Model) (n : String) : SubRecord :=
  (m.lookup n).getD emptySubRecord

/-- Writing model[name] in place. -/
def updateRecord (m : Model) (n : String) (r : SubRecord) : Model :=
  m.map (fun p => if p.1 = n then (n, r) else p)

/-- SUPPORTED_FORMATS from the source: the default allow-list. -/
def SUPPORTED_FORMATS : List String := ["JPEG", "PNG", "GIF", "TIFF"]

/-- The lowercase hex digit of a value below 16: the decimal digits then
the letters a through f, as Buffer.toString with the hex encoding emits. -/
def hexDigit (n : Nat) : Char :=
  if n < 10 then Char.ofNat (48 + n) else Char.ofNat (87 + n)

/-- The lowercase hexadecimal alphabet, in value order. -/
def hexDigits : List Char := (List.range 16).map hexDigit

/-- Buffer.toString('hex'): every byte becomes two lowercase hex digits,
high nibble first. -/
def bytesToHex : List Nat → List Char
  | [] => []
  | b :: rest => hexDigit (b / 16) :: hexDigit (b % 16) :: bytesToHex rest

/-- randomString from the source.  crypto.randomBytes(ceil(length/2)) is an
oracle, so the random bytes are an input; the source hex-encodes them and
slices to the requested length. -/
def randomString (length : Nat) (bytes : List Nat) : String :=
  String.mk ((bytesToHex bytes).take length)

/-- Node's path.extname: the extension of the part after the last slash,
from its last dot to the end; empty when there is no dot, when the dot is
the leading character (hidden files), or for the ".." basename. -/
def extname (p : String) : String :=
  let base := ((p.toList.reverse).takeWhile (fun c => c ≠ '/')).reverse
  let extRev := base.reverse.takeWhile (fun c => c ≠ '.')
  let dotIdx := base.length - extRev.length - 1
  if extRev.length = base.length then ""
  else if dotIdx = 0 then ""
  else if dotIdx = 1 ∧ base.take 1 = ['.'] then ""
  else String.mk ('.' :: extRev.reverse)

/-- The extension chosen in process: transform.format when that key is
present and truthy, else the attachment path's extension.  The reserved
format key holds the desired output extension, a string, per the data
model; the empty string is falsy in JS, hence the fallback. -/
def chooseExt (t : TransformSpec) (attPath : String) : String :=
  match List.lookup "format" t with
  | some (TValue.scalar f) => if f = "" then extname attPath else f
  | _ => extname attPath

/-- The dot-normalisation in process: if extension.substring(0,1) is not a
dot, prepend one. -/
def normalizeExt (ext : String) : String :=
  if ext.toList.take 1 ≠ ['.'] then "." ++ ext else ext

/-- path.join on a directory and a file name (identity normalisation for
clean segments, which is all the source produces). -/
def pathJoin (a b : String) : String := a ++ "/" ++ b

/-- The temporary output path allocated in process for one transform:
path.join(tmpDir, randomString(20) + extension) with the normalised
extension. -/
def outputFile (tmpDir : String) (bytes : List Nat) (t : TransformSpec) (attPath : String) : String :=
  pathJoin tmpDir (randomString 20 bytes ++ normalizeExt (chooseExt t attPath))

/-- Tokens contributed by one value in _setUpConvertArgs: array values push
each element, scalars push the value itself. -/
def tvalTokens : TValue → List String
  | TValue.scalar s => [s]
  | TValue.list l => l

/-- _setUpConvertArgs from the source: walk the transform's keys in order,
skip the reserved format key, and for any other key push the dash-prefixed
flag followed by the value token or tokens. -/
def setUpConvertArgs : TransformSpec → List String
  | [] => []
  | (arg, v) :: rest =>
    if arg = "format" then setUpConvertArgs rest
    else ("-" ++ arg) :: (tvalTokens v ++ setUpConvertArgs rest)

/-- The argument list as the spec describes it: drop the reserved format
key, and every remaining key yields its dash-prefixed flag followed by its
value tokens, in the iteration order of the keys.  Written from the spec's
words, to be compared with setUpConvertArgs. -/
def specConvertArgs (t : TransformSpec) : List String :=
  ((t.filter (fun kv => kv.1 ≠ "format")).map
    (fun kv => ("-" ++ kv.1) :: tvalTokens kv.2)).flatten

/-- The five pipeline stages of one transform unit, in source order. -/
inductive Stage
  | convert
  | identifyOut
  | statOut
  | sniffMime
  | store
deriving DecidableEq, Repr

/-- All five stages in their waterfall order. -/
def fullStages : List Stage :=
  [Stage.convert, Stage.identifyOut, Stage.statOut, Stage.sniffMime, Stage.store]

/-- Oracle outcomes for the five external calls a single transform unit
makes: the convert invocation, identify on the output file, fs.stat, the
MIME detection and storageProvider.save (which yields the url). -/
structure StageOutcomes where
  convert : Except String Unit
  identifyOut : Except String Attrs
  statSize : Except String Nat
  sniffMime : Except String String
  saveUrl : Except String String

/-- Result of one transform unit: the terminal error if any, the
sub-record after the run, whether storageProvider.save was invoked, and
which stages ran, in order. -/
structure UnitResult where
  error : Option String
  record : SubRecord
  saveCalled : Bool
  stagesRun : List Stage
deriving DecidableEq, Repr

/-- _setUpTransform's task body: the async.waterfall of convert, identify
of the output, fs.stat, MIME sniff and storage save, each stage consuming
the previous stage's output and any error short-circuiting the rest; only
when no stage failed are the eight metadata fields written onto the
sub-record. -/
def runUnit (oc : StageOutcomes) (attName : String) (old : SubRecord) : UnitResult :=
  match oc.convert with
  | Except.error e => ⟨some e, old, false, [Stage.convert]⟩
  | Except.ok _ =>
    match oc.identifyOut with
    | Except.error e => ⟨some e, old, false, [Stage.convert, Stage.identifyOut]⟩
    | Except.ok a =>
      match oc.statSize with
      | Except.error e =>
        ⟨some e, old, false, [Stage.convert, Stage.identifyOut, Stage.statOut]⟩
      | Except.ok sz =>
        match oc.sniffMime with
        | Except.error e =>
          ⟨some e, old, false,
            [Stage.convert, Stage.identifyOut, Stage.statOut, Stage.sniffMime]⟩
        | Except.ok mime =>
          match oc.saveUrl with
          | Except.error e => ⟨some e, old, true, fullStages⟩
          | Except.ok url =>
            ⟨none,
              ⟨some a.format, some a.depth, some a.width, some a.height,
                some sz, some url, some attName, some mime⟩,
              true, fullStages⟩

/-- Outcome of the initial gm identify on the source attachment: an engine
error, a falsy attributes object, or the attributes. -/
inductive IdentifySource
  | err (e : String)
  | noAttrs
  | ok (a : Attrs)

/-- The oracle environment of one process call: the source identification
outcome and, per transform name, the stage outcomes of that unit. -/
structure Env where
  sourceIdentify : IdentifySource
  stages : String → StageOutcomes

/-- First error in task order, as async.parallel reports it. -/
def firstSome (a b : Option String) : Option String :=
  match a with
  | some e => some e
  | none => b

/-- First error of a list of unit outcomes. -/
def firstSomeList : List (Option String) → Option String
  | [] => none
  | some e :: _ => some e
  | none :: rest => firstSomeList rest

/-- Result of running the batch of transform units. -/
structure BatchResult where
  error : Option String
  model : Model
  saveCalls : Nat

/-- Running the tasks process builds, one per configured transform name in
key order: every unit runs to completion against its own sub-record
(async.parallel does not cancel siblings), and the first error in task
order is the one reported. -/
def runUnits (ts : List (String × TransformSpec)) (env : Env) (attName : String) (m : Model) : BatchResult :=
  match ts with
  | [] => ⟨none, m, 0⟩
  | (n, _t) :: rest =>
    let u := runUnit (env.stages n) attName (lookupD m n)
    let r := runUnits rest env attName (updateRecord m n u.record)
    ⟨firstSome u.error r.error, r.model, (if u.saveCalled then 1 else 0) + r.saveCalls⟩

/-- Result of a whole process call: the reported error if any, the model
afterwards, the number of storageProvider.save invocations and the number
of transform units started. -/
structure ProcessResult where
  error : Option String
  model : Model
  saveCalls : Nat
  unitsStarted : Nat

/-- process from the source: identify the source attachment; an engine
error is forwarded, falsy attributes or a format outside the configured
allow-list fail with the "File was not an image" error before any task is
built; otherwise one unit per configured transform runs and async.parallel
reports the first error. -/
def process (formats : List String) (ts : List (String × TransformSpec)) (env : Env) (att : Attachment) (m : Model) : ProcessResult :=
  match env.sourceIdentify with
  | IdentifySource.err e => ⟨some e, m, 0, 0⟩
  | IdentifySource.noAttrs => ⟨some "File was not an image", m, 0, 0⟩
  | IdentifySource.ok a =>
    if formats.contains a.format then
      let b := runUnits ts env att.name m
      ⟨b.error, b.model, b.saveCalls, ts.length⟩
    else ⟨some "File was not an image", m, 0, 0⟩

/-- JS truthiness of model[name].url: undefined and the empty string are
falsy, any other string is truthy. -/
def hasUrl (r : SubRecord) : Bool :=
  match r.url with
  | none => false
  | some s => s ≠ ""

/-- Result of a remove call: the first error reported by async.parallel
and the sub-records handed to storageProvider.remove, with their names, in
task order. -/
structure RemoveResult where
  error : Option String
  calls : List (String × SubRecord)
deriving DecidableEq, Repr

/-- remove from the source: for each configured transform name in key
order, skip the sub-record when its url is falsy, otherwise push a task
calling storageProvider.remove on it; async.parallel reports the first
error.  The per-name removal errors are an oracle. -/
def removeRun (ts : List (String × TransformSpec)) (m : Model) (rerr : String → Option String) : RemoveResult :=
  match ts with
  | [] => ⟨none, []⟩
  | (n, _t) :: rest =>
    let r := removeRun rest m rerr
    if hasUrl (lookupD m n) then
      ⟨firstSome (rerr n) r.error, (n, lookupD m n) :: r.calls⟩
    else r

/-- willOverwrite from the source: result starts false and each iteration
overwrites it with the current sub-record's url truthiness, so only the
last-iterated name survives. -/
def willOverwrite (ts : List (String × TransformSpec)) (m : Model) : Bool :=
  ts.foldl (fun _r nt => hasUrl (lookupD m nt.1)) false

/-- The options object handed to the constructor; none marks an absent
property. -/
structure Options where
  transforms : Option (List (String × TransformSpec))
  tmpDir : Option String
  formats : Option (List String)
deriving DecidableEq, Repr

/-- The two defaulting writes of the constructor, applied in place to the
caller's options object (the source aliases it as this._options and
mutates it): a falsy tmpDir (absent or the empty string) is replaced by
os.tmpdir(), an absent formats is replaced by SUPPORTED_FORMATS (arrays
are always truthy in JS, so a present empty list is kept). -/
def fillDefaults (sysTmpDir : String) (o : Options) : Options :=
  let o1 :=
    match o.tmpDir with
    | none => { o with tmpDir := some sysTmpDir }
    | some d => if d = "" then { o with tmpDir := some sysTmpDir } else o
  match o1.formats with
  | none => { o1 with formats := some SUPPORTED_FORMATS }
  | some _ => o1

/-- The constructor: check.assert.object(options.transforms) throws when
transforms is missing; otherwise the defaulting writes are applied to the
caller's object, whose final state is returned. -/
def constructorOptions (sysTmpDir : String) (o : Options) : Except String Options :=
  match o.transforms with
  | none => Except.error "Some transforms are required!"
  | some _ => Except.ok (fillDefaults sysTmpDir o)

/-- A source identification outcome the orchestrator rejects: an engine
error, falsy attributes, or a format outside the allow-list. -/
def sourceRejected (formats : List String) (src : IdentifySource) : Bool :=
  match src with
  | IdentifySource.err _ => true
  | IdentifySource.noAttrs => true
  | IdentifySource.ok a => !(formats.contains a.format)

/-- Concrete stage outcomes with every stage succeeding, for instantiating
the theorems below. -/
def okOutcomes : StageOutcomes :=
  ⟨Except.ok (), Except.ok ⟨"PNG", 8, 4, 4⟩, Except.ok 7,
    Except.ok "image/png", Except.ok "http://cdn/b"⟩

/-- Concrete stage outcomes whose convert stage fails. -/
def badOutcomes : StageOutcomes :=
  ⟨Except.error "convert blew up", Except.ok ⟨"PNG", 8, 4, 4⟩, Except.ok 7,
    Except.ok "image/png", Except.ok "http://cdn/a"⟩

/-- A concrete two-transform configuration. -/
def tsW : List (String × TransformSpec) := [("a", []), ("b", [])]

/-- A concrete model holding an empty sub-record per transform name. -/
def modelW : Model := [("a", emptySubRecord), ("b", emptySubRecord)]

/-- A concrete attachment. -/
def attW : Attachment := ⟨"up/p.png", "p.png"⟩

/-- A concrete environment: the source identifies as PNG, the first unit
fails at convert and the second succeeds throughout. -/
def envW : Env :=
  ⟨IdentifySource.ok ⟨"PNG", 8, 4, 4⟩, fun n => if n = "a" then badOutcomes else okOutcomes⟩

/-- A concrete model where only the first transform has a stored url. -/
def modelU : Model :=
  [("a", ⟨none, none, none, none, none, some "http://stored/a", none, none⟩),
   ("b", emptySubRecord)]

/-! Helper lemmas. -/

theorem runUnit_error_indep (oc : StageOutcomes) (n1 n2 : String) (o1 o2 : SubRecord) :
    (runUnit oc n1 o1).error = (runUnit oc n2 o2).error := by
  obtain ⟨c, i, s, sn, sv⟩ := oc
  cases c <;> cases i <;> cases s <;> cases sn <;> cases sv <;> rfl

theorem unitErrs_indep (rest : List (String × TransformSpec)) (env : Env) (attName : String) (m1 m2 : Model) :
    rest.map (fun nt => (runUnit (env.stages nt.1) attName (lookupD m1 nt.1)).error)
      = rest.map (fun nt => (runUnit (env.stages nt.1) attName (lookupD m2 nt.1)).error) := by
  induction rest with
  | nil => rfl
  | cons x xs ih =>
    simp only [List.map_cons, ih]
    rw [runUnit_error_indep (env.stages x.1) attName attName (lookupD m1 x.1) (lookupD m2 x.1)]

theorem runUnits_error (ts : List (String × TransformSpec)) (env : Env) (attName : String) :
    ∀ m, (runUnits ts env attName m).error
      = firstSomeList (ts.map (fun nt => (runUnit (env.stages nt.1) attName (lookupD m nt.1)).error)) := by
  induction ts with
  | nil => intro m; rfl
  | cons nt rest ih =>
    intro m
    obtain ⟨n, t⟩ := nt
    simp only [runUnits, List.map_cons]
    cases hu : (runUnit (env.stages n) attName (lookupD m n)).error with
    | some e => simp [firstSome, firstSomeList, hu]
    | none =>
      simp only [firstSome, firstSomeList, hu]
      rw [ih (updateRecord m n (runUnit (env.stages n) attName (lookupD m n)).record)]
      rw [unitErrs_indep rest env attName (updateRecord m n (runUnit (env.stages n) attName (lookupD m n)).record) m]

theorem firstSomeList_eq_none_iff (l : List (Option String)) :
    firstSomeList l = none ↔ ∀ x ∈ l, x = none := by
  induction l with
  | nil => simp [firstSomeList]
  | cons x xs ih => cases x <;> simp [firstSomeList, ih]

theorem bytesToHex_length (bs : List Nat) : (bytesToHex bs).length = 2 * bs.length := by
  induction bs with
  | nil => rfl
  | cons b rest ih => simp [bytesToHex, ih]; omega

theorem hexDigit_mem (n : Nat) (h : n < 16) : hexDigit n ∈ hexDigits :=
  List.mem_map.mpr ⟨n, List.mem_range.mpr h, rfl⟩

theorem bytesToHex_mem (bs : List Nat) (hb : ∀ b ∈ bs, b < 256) :
    ∀ c ∈ bytesToHex bs, c ∈ hexDigits := by
  induction bs with
  | nil => intro c hc; simp [bytesToHex] at hc
  | cons b rest ih =>
    intro c hc
    have hblt : b < 256 := hb b (by simp)
    have hrest : ∀ x ∈ rest, x < 256 := fun x hx => hb x (by simp [hx])
    simp only [bytesToHex, List.mem_cons] at hc
    rcases hc with h1 | h2 | h3
    · exact h1 ▸ hexDigit_mem (b / 16) (by omega)
    · exact h2 ▸ hexDigit_mem (b % 16) (Nat.mod_lt b (by norm_num))
    · exact ih hrest c h3

theorem normalizeExt_dot (e : String) : (normalizeExt e).toList.take 1 = ['.'] := by
  unfold normalizeExt
  split
  · rfl
  · next h => simpa using h

theorem removeRun_calls_eq (ts : List (String × TransformSpec)) (m : Model) (rerr : String → Option String) :
    (removeRun ts m rerr).calls
      = (ts.filter (fun nt => hasUrl (lookupD m nt.1))).map (fun nt => (nt.1, lookupD m nt.1)) := by
  induction ts with
  | nil => rfl
  | cons nt rest ih =>
    obtain ⟨n, t⟩ := nt
    by_cases h : hasUrl (lookupD m n)
    · simp [removeRun, List.filter_cons, h, ih]
    · simp [removeRun, List.filter_cons, h, ih]

theorem removeRun_call_names (ts : List (String × TransformSpec)) (m : Model) (rerr : String → Option String) :
    (removeRun ts m rerr).calls.map Prod.fst
      = (ts.map Prod.fst).filter (fun n => hasUrl (lookupD m n)) := by
  induction ts with
  | nil => rfl
  | cons nt rest ih =>
    obtain ⟨n, t⟩ := nt
    by_cases h : hasUrl (lookupD m n)
    · simp [removeRun, List.filter_cons, h, ih]
    · simp [removeRun, List.filter_cons, h, ih]

theorem removeRun_no_urls (ts : List (String × TransformSpec)) (m : Model) (rerr : String → Option String)
    (h : ∀ nt ∈ ts, hasUrl (lookupD m nt.1) = false) :
    removeRun ts m rerr = ⟨none, []⟩ := by
  induction ts with
  | nil => rfl
  | cons nt rest ih =>
    obtain ⟨n, t⟩ := nt
    have hn : hasUrl (lookupD m n) = false := h (n, t) (by simp)
    have hrest : ∀ nt ∈ rest, hasUrl (lookupD m nt.1) = false :=
      fun nt hnt => h nt (by simp [hnt])
    simp [removeRun, hn, ih hrest]

theorem foldl_overwrite (g : String × TransformSpec → Bool) (ts : List (String × TransformSpec)) :
    ∀ b : Bool, ts.foldl (fun _r nt => g nt) b
      = (match ts.getLast? with
         | none => b
         | some nt => g nt) := by
  induction ts with
  | nil => intro b; rfl
  | cons x xs ih =>
    intro b
    cases xs with
    | nil => rfl
    | cons y ys =>
      rw [List.foldl_cons, ih (g x), List.getLast?_cons_cons]
      cases hl : (y :: ys).getLast? with
      | none => simp at hl
      | some z => rfl

/-! Claim theorems. -/

/-- C4: the argument-list builder emits no token for the reserved format
key, and for every other key emits exactly one dash-prefixed flag token
followed by the scalar value as one token or by each list element in
original order, preserving the iteration order of the spec's keys: the
source builder coincides with the list the spec describes. -/
theorem setUpConvertArgs_matches_spec (t : TransformSpec) :
    setUpConvertArgs t = specConvertArgs t := by
  induction t with
  | nil => rfl
  | cons kv rest ih =>
    obtain ⟨arg, v⟩ := kv
    by_cases h : arg = "format"
    · simp [setUpConvertArgs, specConvertArgs, List.filter_cons, h] at ih ⊢
      exact ih
    · simp [setUpConvertArgs, specConvertArgs, List.filter_cons, h] at ih ⊢
      exact ih

/-- C7: willOverwrite returns exactly the url-truthiness of the sub-record
of the last transform name in configured iteration order (false for an
empty configuration); it is not an OR over all names, so a url on an
earlier-iterated transform alone leaves the result false. -/
theorem willOverwrite_last_only (ts : List (String × TransformSpec)) (m : Model) :
    willOverwrite ts m
      = (match ts.getLast? with
         | none => false
         | some nt => hasUrl (lookupD m nt.1)) := by
  unfold willOverwrite
  exact foldl_overwrite (fun nt => hasUrl (lookupD m nt.1)) ts false

/-- C2: a transform unit writes the eight fields format, depth, width,
height, size, url, name, type onto its sub-record exactly when all five
stages convert, identify, stat, sniff and store succeeded; on any failure
path the sub-record is left untouched, with no partial writes. -/
theorem runUnit_commit_iff (oc : StageOutcomes) (attName : String) (old : SubRecord) :
    ((runUnit oc attName old).error.isSome = true → (runUnit oc attName old).record = old)
    ∧ (∀ u a sz mi url, oc.convert = Except.ok u → oc.identifyOut = Except.ok a →
        oc.statSize = Except.ok sz → oc.sniffMime = Except.ok mi → oc.saveUrl = Except.ok url →
        runUnit oc attName old
          = ⟨none,
              ⟨some a.format, some a.depth, some a.width, some a.height,
                some sz, some url, some attName, some mi⟩,
              true, fullStages⟩)
    ∧ ((runUnit oc attName old).error = none ↔
        ((∃ u, oc.convert = Except.ok u) ∧ (∃ a, oc.identifyOut = Except.ok a)
          ∧ (∃ sz, oc.statSize = Except.ok sz) ∧ (∃ mi, oc.sniffMime = Except.ok mi)
          ∧ (∃ url, oc.saveUrl = Except.ok url))) := by
  obtain ⟨c, i, s, sn, sv⟩ := oc
  cases c <;> cases i <;> cases s <;> cases sn <;> cases sv <;>
    (simp [runUnit]; try (rintro a sz mi url rfl rfl rfl rfl; simp))

/-- C2 witness: with all five stages succeeding the unit commits the
eight fields and reports no error. -/
theorem runUnit_commit_iff_witness :
    runUnit ⟨Except.ok (), Except.ok ⟨"PNG", 8, 120, 80⟩, Except.ok 4096,
        Except.ok "image/png", Except.ok "http://cdn/x"⟩ "photo.png" emptySubRecord
      = ⟨none,
          ⟨some "PNG", some 8, some 120, some 80, some 4096,
            some "http://cdn/x", some "photo.png", some "image/png"⟩,
          true, fullStages⟩ :=
  (runUnit_commit_iff ⟨Except.ok (), Except.ok ⟨"PNG", 8, 120, 80⟩, Except.ok 4096,
      Except.ok "image/png", Except.ok "http://cdn/x"⟩ "photo.png" emptySubRecord).2.1
    () ⟨"PNG", 8, 120, 80⟩ 4096 "image/png" "http://cdn/x" rfl rfl rfl rfl rfl

/-- C5: within a transform unit the stages run strictly in the order
convert, identify output, stat output, sniff MIME, store: the stages run
are always an order-respecting prefix of that sequence, an error at any
stage stops the pipeline there and becomes the unit's terminal error, and
only with every stage succeeding do all five run with no error. -/
theorem runUnit_stage_order (oc : StageOutcomes) (attName : String) (old : SubRecord) :
    ((runUnit oc attName old).stagesRun
        = fullStages.take (runUnit oc attName old).stagesRun.length)
    ∧ (∀ e, oc.convert = Except.error e →
        (runUnit oc attName old).error = some e
          ∧ (runUnit oc attName old).stagesRun = [Stage.convert])
    ∧ (∀ u e, oc.convert = Except.ok u → oc.identifyOut = Except.error e →
        (runUnit oc attName old).error = some e
          ∧ (runUnit oc attName old).stagesRun = [Stage.convert, Stage.identifyOut])
    ∧ (∀ u a e, oc.convert = Except.ok u → oc.identifyOut = Except.ok a →
        oc.statSize = Except.error e →
        (runUnit oc attName old).error = some e
          ∧ (runUnit oc attName old).stagesRun
              = [Stage.convert, Stage.identifyOut, Stage.statOut])
    ∧ (∀ u a sz e, oc.convert = Except.ok u → oc.identifyOut = Except.ok a →
        oc.statSize = Except.ok sz → oc.sniffMime = Except.error e →
        (runUnit oc attName old).error = some e
          ∧ (runUnit oc attName old).stagesRun
              = [Stage.convert, Stage.identifyOut, Stage.statOut, Stage.sniffMime])
    ∧ (∀ u a sz mi e, oc.convert = Except.ok u → oc.identifyOut = Except.ok a →
        oc.statSize = Except.ok sz → oc.sniffMime = Except.ok mi →
        oc.saveUrl = Except.error e →
        (runUnit oc attName old).error = some e
          ∧ (runUnit oc attName old).stagesRun = fullStages)
    ∧ (∀ u a sz mi url, oc.convert = Except.ok u → oc.identifyOut = Except.ok a →
        oc.statSize = Except.ok sz → oc.sniffMime = Except.ok mi →
        oc.saveUrl = Except.ok url →
        (runUnit oc attName old).error = none
          ∧ (runUnit oc attName old).stagesRun = fullStages) := by
  obtain ⟨c, i, s, sn, sv⟩ := oc
  cases c <;> cases i <;> cases s <;> cases sn <;> cases sv <;>
    simp [runUnit, fullStages]

/-- C5 witness: a unit whose stat stage fails ran exactly convert,
identify and stat, in order, and surfaces the stat error. -/
theorem runUnit_stage_order_witness :
    (runUnit ⟨Except.ok (), Except.ok ⟨"GIF", 8, 10, 10⟩, Except.error "ENOENT",
        Except.ok "image/gif", Except.ok "http://cdn/y"⟩ "anim.gif" emptySubRecord).error
        = some "ENOENT"
    ∧ (runUnit ⟨Except.ok (), Except.ok ⟨"GIF", 8, 10, 10⟩, Except.error "ENOENT",
        Except.ok "image/gif", Except.ok "http://cdn/y"⟩ "anim.gif" emptySubRecord).stagesRun
        = [Stage.convert, Stage.identifyOut, Stage.statOut] :=
  (runUnit_stage_order ⟨Except.ok (), Except.ok ⟨"GIF", 8, 10, 10⟩, Except.error "ENOENT",
      Except.ok "image/gif", Except.ok "http://cdn/y"⟩ "anim.gif" emptySubRecord).2.2.2.1
    () ⟨"GIF", 8, 10, 10⟩ "ENOENT" rfl rfl rfl

/-- C1: when identification of the source attachment fails, or the
identified format is not in the configured supported-formats set, process
fails with an error (the unsupported-file-type rejection or the forwarded
identification error), starts no transform unit, never calls
storageProvider.save, and leaves the model untouched. -/
theorem process_rejects_unsupported (formats : List String) (ts : List (String × TransformSpec))
    (env : Env) (att : Attachment) (m : Model)
    (h : sourceRejected formats env.sourceIdentify = true) :
    (process formats ts env att m).error.isSome = true
    ∧ (process formats ts env att m).saveCalls = 0
    ∧ (process formats ts env att m).unitsStarted = 0
    ∧ (process formats ts env att m).model = m := by
  cases henv : env.sourceIdentify with
  | err e => simp [process, henv]
  | noAttrs => simp [process, henv]
  | ok a =>
    rw [henv] at h
    simp only [sourceRejected, Bool.not_eq_true'] at h
    have hm : a.format ∉ formats := by simpa using h
    simp [process, henv, hm]

/-- C1 witness: a source identified as BMP against the default allow-list
is rejected with no unit started and no save call. -/
theorem process_rejects_unsupported_witness :
    (process SUPPORTED_FORMATS [("thumb", [("resize", TValue.scalar "100x100")])]
        ⟨IdentifySource.ok ⟨"BMP", 8, 5, 5⟩,
          fun _n => ⟨Except.ok (), Except.ok ⟨"BMP", 8, 5, 5⟩, Except.ok 9,
            Except.ok "image/bmp", Except.ok "http://cdn/z"⟩⟩
        ⟨"up/sample.bmp", "sample.bmp"⟩ [("thumb", emptySubRecord)]).error.isSome = true
    ∧ (process SUPPORTED_FORMATS [("thumb", [("resize", TValue.scalar "100x100")])]
        ⟨IdentifySource.ok ⟨"BMP", 8, 5, 5⟩,
          fun _n => ⟨Except.ok (), Except.ok ⟨"BMP", 8, 5, 5⟩, Except.ok 9,
            Except.ok "image/bmp", Except.ok "http://cdn/z"⟩⟩
        ⟨"up/sample.bmp", "sample.bmp"⟩ [("thumb", emptySubRecord)]).saveCalls = 0
    ∧ (process SUPPORTED_FORMATS [("thumb", [("resize", TValue.scalar "100x100")])]
        ⟨IdentifySource.ok ⟨"BMP", 8, 5, 5⟩,
          fun _n => ⟨Except.ok (), Except.ok ⟨"BMP", 8, 5, 5⟩, Except.ok 9,
            Except.ok "image/bmp", Except.ok "http://cdn/z"⟩⟩
        ⟨"up/sample.bmp", "sample.bmp"⟩ [("thumb", emptySubRecord)]).unitsStarted = 0
    ∧ (process SUPPORTED_FORMATS [("thumb", [("resize", TValue.scalar "100x100")])]
        ⟨IdentifySource.ok ⟨"BMP", 8, 5, 5⟩,
          fun _n => ⟨Except.ok (), Except.ok ⟨"BMP", 8, 5, 5⟩, Except.ok 9,
            Except.ok "image/bmp", Except.ok "http://cdn/z"⟩⟩
        ⟨"up/sample.bmp", "sample.bmp"⟩ [("thumb", emptySubRecord)]).model
      = [("thumb", emptySubRecord)] :=
  process_rejects_unsupported SUPPORTED_FORMATS [("thumb", [("resize", TValue.scalar "100x100")])]
    ⟨IdentifySource.ok ⟨"BMP", 8, 5, 5⟩,
      fun _n => ⟨Except.ok (), Except.ok ⟨"BMP", 8, 5, 5⟩, Except.ok 9,
        Except.ok "image/bmp", Except.ok "http://cdn/z"⟩⟩
    ⟨"up/sample.bmp", "sample.bmp"⟩ [("thumb", emptySubRecord)] (by decide)

/-- C3: on a supported-format attachment, process reports no error exactly
when every constructed transform unit committed, and otherwise reports the
first error among the units in task order rather than collecting them. -/
theorem process_first_error (formats : List String) (ts : List (String × TransformSpec))
    (env : Env) (att : Attachment) (m : Model) (a : Attrs)
    (h1 : env.sourceIdentify = IdentifySource.ok a)
    (h2 : formats.contains a.format = true) :
    ((process formats ts env att m).error
        = firstSomeList (ts.map
            (fun nt => (runUnit (env.stages nt.1) att.name (lookupD m nt.1)).error)))
    ∧ ((process formats ts env att m).error = none ↔
        ∀ nt ∈ ts, (runUnit (env.stages nt.1) att.name (lookupD m nt.1)).error = none) := by
  have hp : (process formats ts env att m).error = (runUnits ts env att.name m).error := by
    have hm : a.format ∈ formats := by simpa using h2
    simp [process, h1, hm]
  rw [hp, runUnits_error ts env att.name m]
  refine ⟨rfl, ?_⟩
  rw [firstSomeList_eq_none_iff]
  constructor
  · intro h nt hnt
    exact h _ (List.mem_map_of_mem _ hnt)
  · intro h x hx
    obtain ⟨nt, hnt, rfl⟩ := List.mem_map.mp hx
    exact h nt hnt

/-- C3 witness: with the first unit failing at convert and the second
succeeding, process reports the first error in task order; the
committed-iff-success direction is instantiated at the same input. -/
theorem process_first_error_witness :
    ((process ["PNG"] tsW envW attW modelW).error
        = firstSomeList (tsW.map
            (fun nt => (runUnit (envW.stages nt.1) attW.name (lookupD modelW nt.1)).error)))
    ∧ ((process ["PNG"] tsW envW attW modelW).error = none ↔
        ∀ nt ∈ tsW,
          (runUnit (envW.stages nt.1) attW.name (lookupD modelW nt.1)).error = none) :=
  process_first_error ["PNG"] tsW envW attW modelW ⟨"PNG", 8, 4, 4⟩ rfl rfl

/-- C6: a remove call hands storageProvider.remove exactly the sub-records
whose url is non-empty, in configured iteration order; with unique
transform names each such name is removed exactly once and url-less names
zero times, and with no urls at all the call succeeds with no removals. -/
theorem remove_calls_once (ts : List (String × TransformSpec)) (m : Model)
    (rerr : String → Option String) (hnd : (ts.map Prod.fst).Nodup) :
    ((removeRun ts m rerr).calls
        = (ts.filter (fun nt => hasUrl (lookupD m nt.1))).map (fun nt => (nt.1, lookupD m nt.1)))
    ∧ (∀ n ∈ ts.map Prod.fst,
        ((removeRun ts m rerr).calls.map Prod.fst).count n
          = if hasUrl (lookupD m n) then 1 else 0)
    ∧ ((∀ nt ∈ ts, hasUrl (lookupD m nt.1) = false) → removeRun ts m rerr = ⟨none, []⟩) := by
  refine ⟨removeRun_calls_eq ts m rerr, ?_, removeRun_no_urls ts m rerr⟩
  intro n hn
  rw [removeRun_call_names]
  by_cases hq : hasUrl (lookupD m n)
  · rw [if_pos hq, List.count_filter (by simpa using hq)]
    exact List.count_eq_one_of_mem hnd hn
  · rw [if_neg hq]
    refine List.count_eq_zero_of_not_mem ?_
    intro hmem
    exact hq (by simpa using (List.mem_filter.mp hmem).2)

/-- C6 witness: with a url on transform a only, remove hands exactly a's
sub-record to the storage provider, once, and b is never removed. -/
theorem remove_calls_once_witness :
    ((removeRun tsW modelU (fun _n => none)).calls
        = (tsW.filter (fun nt => hasUrl (lookupD modelU nt.1))).map
            (fun nt => (nt.1, lookupD modelU nt.1)))
    ∧ (∀ n ∈ tsW.map Prod.fst,
        ((removeRun tsW modelU (fun _n => none)).calls.map Prod.fst).count n
          = if hasUrl (lookupD modelU n) then 1 else 0)
    ∧ ((∀ nt ∈ tsW, hasUrl (lookupD modelU nt.1) = false) →
        removeRun tsW modelU (fun _n => none) = ⟨none, []⟩) :=
  remove_calls_once tsW modelU (fun _n => none) (by decide)

/-- C8: the temporary output path is tmpDir, a slash, a 20-character
lowercase-hexadecimal random string (from the 10 random bytes the source
requests for length 20), and an extension that always begins with a dot. -/
theorem outputFile_shape (tmpDir : String) (bytes : List Nat) (t : TransformSpec) (p : String)
    (hlen : bytes.length = 10) (hb : ∀ b ∈ bytes, b < 256) :
    outputFile tmpDir bytes t p
      = tmpDir ++ "/" ++ (randomString 20 bytes ++ normalizeExt (chooseExt t p))
    ∧ (randomString 20 bytes).length = 20
    ∧ (∀ c ∈ (randomString 20 bytes).toList, c ∈ hexDigits)
    ∧ (normalizeExt (chooseExt t p)).toList.take 1 = ['.'] := by
  refine ⟨rfl, ?_, ?_, normalizeExt_dot _⟩
  · show ((bytesToHex bytes).take 20).length = 20
    rw [List.length_take, bytesToHex_length, hlen]
    norm_num
  · intro c hc
    exact bytesToHex_mem bytes hb c (List.take_subset 20 (bytesToHex bytes) hc)

/-- C8 witness: a concrete 10-byte random draw yields a 20-character
lowercase-hex name and a dotted extension. -/
theorem outputFile_shape_witness :
    outputFile "/tmp" [16, 42, 255, 0, 1, 2, 3, 4, 5, 6] [] "up/pic.png"
      = "/tmp" ++ "/" ++ (randomString 20 [16, 42, 255, 0, 1, 2, 3, 4, 5, 6]
          ++ normalizeExt (chooseExt [] "up/pic.png"))
    ∧ (randomString 20 [16, 42, 255, 0, 1, 2, 3, 4, 5, 6]).length = 20
    ∧ (∀ c ∈ (randomString 20 [16, 42, 255, 0, 1, 2, 3, 4, 5, 6]).toList, c ∈ hexDigits)
    ∧ (normalizeExt (chooseExt [] "up/pic.png")).toList.take 1 = ['.'] :=
  outputFile_shape "/tmp" [16, 42, 255, 0, 1, 2, 3, 4, 5, 6] [] "up/pic.png" rfl (by decide)

/-- C10: with no format key on the transform and no extension on the
attachment path, the inherited extension is empty, the normalisation still
prepends a dot, and the allocated temporary filename ends in a bare
trailing dot. -/
theorem outputFile_bare_dot (tmpDir : String) (bytes : List Nat) (t : TransformSpec) (p : String)
    (hf : List.lookup "format" t = none) (he : extname p = "") :
    chooseExt t p = ""
    ∧ normalizeExt (chooseExt t p) = "."
    ∧ outputFile tmpDir bytes t p = tmpDir ++ "/" ++ (randomString 20 bytes ++ ".") := by
  have h1 : chooseExt t p = "" := by
    unfold chooseExt
    rw [hf]
    exact he
  have h2 : normalizeExt (chooseExt t p) = "." := by rw [h1]; rfl
  refine ⟨h1, h2, ?_⟩
  unfold outputFile pathJoin
  rw [h2]

/-- C10 witness: a format-less transform and an extension-less path give a
name with a bare trailing dot. -/
theorem outputFile_bare_dot_witness :
    chooseExt [("resize", TValue.list ["100", "100"])] "somefile" = ""
    ∧ normalizeExt (chooseExt [("resize", TValue.list ["100", "100"])] "somefile") = "."
    ∧ outputFile "/tmp" [1, 2, 3] [("resize", TValue.list ["100", "100"])] "somefile"
        = "/tmp" ++ "/" ++ (randomString 20 [1, 2, 3] ++ ".") :=
  outputFile_bare_dot "/tmp" [1, 2, 3] [("resize", TValue.list ["100", "100"])] "somefile"
    (by decide) (by decide)

/-- C9 counterexample: an options object with both tmpDir and formats
present, but with tmpDir the empty string, is not left unchanged: the
falsy empty string is replaced by the system temp directory, refuting the
claim that presence of both fields alone prevents mutation. -/
theorem constructorOptions_unchanged_cex :
    constructorOptions "/systmp"
        ⟨some [("thumb", [])], some "", some ["JPEG"]⟩
      ≠ Except.ok (⟨some [("thumb", [])], some "", some ["JPEG"]⟩ : Options) := by
  intro h
  have h2 : fillDefaults "/systmp" (⟨some [("thumb", [])], some "", some ["JPEG"]⟩ : Options)
      = ⟨some [("thumb", [])], some "", some ["JPEG"]⟩ := by
    have := congrArg
      (fun x => match x with
        | Except.ok o => o
        | Except.error _ => (⟨none, none, none⟩ : Options)) h
    simpa [constructorOptions] using this
  have h3 : (fillDefaults "/systmp"
      (⟨some [("thumb", [])], some "", some ["JPEG"]⟩ : Options)).tmpDir = some "/systmp" := by
    decide
  rw [h2] at h3
  simp at h3

/-- C9 as amended: the constructor mutates the caller's options object in
place (the source aliases it and writes into it); transforms is never
touched, an absent or empty-string tmpDir (both falsy in JS) is replaced
by the system temp directory, an absent formats is replaced by the default
list, and an options object with formats present and a non-empty tmpDir
present is left entirely unchanged. -/
theorem constructorOptions_defaults (sys : String) (o : Options) :
    (∀ tr, o.transforms = some tr →
      constructorOptions sys o = Except.ok (fillDefaults sys o))
    ∧ (o.transforms = none →
      constructorOptions sys o = Except.error "Some transforms are required!")
    ∧ ((fillDefaults sys o).transforms = o.transforms)
    ∧ ((o.tmpDir = none ∨ o.tmpDir = some "") → (fillDefaults sys o).tmpDir = some sys)
    ∧ (o.formats = none → (fillDefaults sys o).formats = some SUPPORTED_FORMATS)
    ∧ (∀ d fs, o.tmpDir = some d → d ≠ "" → o.formats = some fs → fillDefaults sys o = o) := by
  obtain ⟨tr, td, fm⟩ := o
  refine ⟨?_, ?_, ?_, ?_, ?_, ?_⟩
  · intro tr' h
    rw [constructorOptions]
    cases tr with
    | none => exact absurd h (by simp)
    | some x => rfl
  · intro h
    rw [constructorOptions]
    cases tr with
    | none => rfl
    | some x => exact absurd h (by simp)
  · cases td with
    | none => cases fm <;> rfl
    | some d =>
      by_cases hd : d = "" <;> cases fm <;> simp [fillDefaults, hd]
  · rintro (h | h) <;> cases td <;> simp_all <;> cases fm <;> simp [fillDefaults]
  · intro h
    subst h
    cases td with
    | none => rfl
    | some d => by_cases hd : d = "" <;> simp [fillDefaults, hd]
  · intro d fs hd hne hf
    subst hd
    subst hf
    simp [fillDefaults, hne]

/-- C9 witness: an options object with a non-empty tmpDir and formats
present is left unchanged by the constructor's defaulting writes. -/
theorem constructorOptions_defaults_witness :
    fillDefaults "/systmp" (⟨some [("thumb", [])], some "/var/tmp", some ["PNG"]⟩ : Options)
      = ⟨some [("thumb", [])], some "/var/tmp", some ["PNG"]⟩ :=
  (constructorOptions_defaults "/systmp"
      ⟨some [("thumb", [])], some "/var/tmp", some ["PNG"]⟩).2.2.2.2.2
    "/var/tmp" ["PNG"] rfl (by decide) rfl
